import Mathlib

/-!
Shallow embedding of `youtube-check.go` (clash-speedtest YouTube unlock
checker), together with theorems settling the specification claims about
country inference, mismatch classification, problematic-node collection,
sorting, report generation, the geolocation resolver and the proxy dialer.

Strings are modelled by Lean `String` / `List Char`.  Go compares strings
byte-lexicographically; on well-formed UTF-8 this coincides with
code-point-lexicographic comparison, which is what `strLt` below implements.
-/

namespace YoutubeCheck

/-! ### The Go exchange sort

Both nested-loop sorts in the source (the token-table sort in
`getExpectedCountryFromName`, lines 254-260, and the problematic-node sort in
`saveProblematicNodes`, lines 324-330) are the same algorithm:

    for i := 0; i < len(a); i++ {
      for j := i + 1; j < len(a); j++ {
        if ¬ le a[i] a[j] { a[i], a[j] = a[j], a[i] }
      }
    }

One pass of the inner loop moves a minimal element (w.r.t. `le`) to
position `i`; `selectPass` is that pass, returning the minimum and the
rewritten remainder, and `exchSort` iterates it. -/

def selectPass (le : α → α → Bool) : α → List α → α × List α
  | x, [] => (x, [])
  | x, y :: ys =>
    if le x y then
      let p := selectPass le x ys
      (p.1, y :: p.2)
    else
      let p := selectPass le y ys
      (p.1, x :: p.2)

def exchSortFuel (le : α → α → Bool) : Nat → List α → List α
  | 0, _ => []
  | _ + 1, [] => []
  | n + 1, x :: xs =>
    let p := selectPass le x xs
    p.1 :: exchSortFuel le n p.2

def exchSort (le : α → α → Bool) (l : List α) : List α :=
  exchSortFuel le l.length l

theorem selectPass_length (le : α → α → Bool) (x : α) (ys : List α) :
    (selectPass le x ys).2.length = ys.length := by
  induction ys generalizing x with
  | nil => rfl
  | cons y ys ih =>
    by_cases h : le x y = true <;> simp [selectPass, h, ih]

theorem selectPass_perm (le : α → α → Bool) (x : α) (ys : List α) :
    List.Perm ((selectPass le x ys).1 :: (selectPass le x ys).2) (x :: ys) := by
  induction ys generalizing x with
  | nil => exact List.Perm.refl _
  | cons y ys ih =>
    by_cases h : le x y = true
    · simp only [selectPass, h, if_pos]
      exact ((List.Perm.swap _ _ _).trans ((ih x).cons y)).trans (List.Perm.swap _ _ _)
    · simp only [selectPass, h, if_neg, Bool.false_eq_true, not_false_iff]
      exact (List.Perm.swap _ _ _).trans ((ih y).cons x)

theorem selectPass_min (le : α → α → Bool)
    (htot : ∀ a b, le a b = true ∨ le b a = true)
    (htrans : ∀ a b c, le a b = true → le b c = true → le a c = true)
    (x : α) (ys : List α) :
    le (selectPass le x ys).1 x = true ∧
      ∀ z ∈ (selectPass le x ys).2, le (selectPass le x ys).1 z = true := by
  induction ys generalizing x with
  | nil =>
    refine ⟨?_, by simp [selectPass]⟩
    rcases htot x x with h | h <;> simpa [selectPass] using h
  | cons y ys ih =>
    by_cases h : le x y = true
    · obtain ⟨h1, h2⟩ := ih x
      simp only [selectPass, h, if_pos]
      refine ⟨h1, ?_⟩
      intro z hz
      rcases List.mem_cons.mp hz with rfl | hz
      · exact htrans _ _ _ h1 h
      · exact h2 z hz
    · have hyx : le y x = true := (htot x y).resolve_left h
      obtain ⟨h1, h2⟩ := ih y
      simp only [selectPass, h, if_neg, Bool.false_eq_true, not_false_iff]
      refine ⟨htrans _ _ _ h1 hyx, ?_⟩
      intro z hz
      rcases List.mem_cons.mp hz with rfl | hz
      · exact htrans _ _ _ h1 hyx
      · exact h2 z hz

theorem exchSortFuel_perm (le : α → α → Bool) (n : Nat) (l : List α)
    (h : l.length ≤ n) : List.Perm (exchSortFuel le n l) l := by
  induction n generalizing l with
  | zero =>
    have : l = [] := List.eq_nil_of_length_eq_zero (Nat.le_zero.mp h)
    subst this; exact List.Perm.refl _
  | succ n ih =>
    match l with
    | [] => exact List.Perm.refl _
    | x :: xs =>
      have hlen : (selectPass le x xs).2.length ≤ n := by
        rw [selectPass_length]
        exact Nat.lt_succ_iff.mp (Nat.lt_of_lt_of_le (Nat.lt_succ_self _) h)
      exact ((ih _ hlen).cons _).trans (selectPass_perm le x xs)

theorem exchSortFuel_pairwise (le : α → α → Bool)
    (htot : ∀ a b, le a b = true ∨ le b a = true)
    (htrans : ∀ a b c, le a b = true → le b c = true → le a c = true)
    (n : Nat) (l : List α) (h : l.length ≤ n) :
    List.Pairwise (fun a b => le a b = true) (exchSortFuel le n l) := by
  induction n generalizing l with
  | zero =>
    have : l = [] := List.eq_nil_of_length_eq_zero (Nat.le_zero.mp h)
    subst this; exact List.Pairwise.nil
  | succ n ih =>
    match l with
    | [] => exact List.Pairwise.nil
    | x :: xs =>
      have hlen : (selectPass le x xs).2.length ≤ n := by
        rw [selectPass_length]
        exact Nat.lt_succ_iff.mp (Nat.lt_of_lt_of_le (Nat.lt_succ_self _) h)
      refine List.Pairwise.cons ?_ (ih _ hlen)
      intro z hz
      have hz' : z ∈ (selectPass le x xs).2 :=
        (exchSortFuel_perm le n _ hlen).mem_iff.mp hz
      exact (selectPass_min le htot htrans x xs).2 z hz'

theorem exchSort_perm (le : α → α → Bool) (l : List α) :
    List.Perm (exchSort le l) l :=
  exchSortFuel_perm le l.length l (Nat.le_refl _)

theorem exchSort_pairwise (le : α → α → Bool)
    (htot : ∀ a b, le a b = true ∨ le b a = true)
    (htrans : ∀ a b c, le a b = true → le b c = true → le a c = true)
    (l : List α) :
    List.Pairwise (fun a b => le a b = true) (exchSort le l) :=
  exchSortFuel_pairwise le htot htrans l.length l (Nat.le_refl _)

/-- In a list that is `Pairwise R`, the first element satisfying `p` is
related by `R` to (or equal to) every element satisfying `p`. -/
theorem find_first_pairwise {R : α → α → Prop} {p : α → Bool} {l : List α} {a b : α}
    (hp : List.Pairwise R l) (ha : l.find? p = some a) (hb : b ∈ l)
    (hpb : p b = true) : R a b ∨ a = b := by
  induction l with
  | nil => cases ha
  | cons x xs ih =>
    by_cases hx : p x = true
    · rw [List.find?_cons_of_pos _ hx] at ha
      injection ha with ha; subst ha
      rcases List.mem_cons.mp hb with rfl | hb
      · exact Or.inr rfl
      · exact Or.inl ((List.pairwise_cons.mp hp).1 b hb)
    · rw [List.find?_cons_of_neg _ hx] at ha
      rcases List.mem_cons.mp hb with rfl | hb
      · exact absurd hpb hx
      · exact ih (List.pairwise_cons.mp hp).2 ha hb

/-! ### Byte-lexicographic string order (Go `<` / `>` on strings) -/

def strLt : List Char → List Char → Bool
  | [], [] => false
  | [], _ :: _ => true
  | _ :: _, [] => false
  | a :: as, b :: bs => if a < b then true else if b < a then false else strLt as bs

def strLe (a b : List Char) : Bool := ! strLt b a

theorem strLt_nil_right (a : List Char) : strLt a [] = false := by
  cases a <;> rfl

theorem strLt_asymm (a b : List Char) (h : strLt a b = true) : strLt b a = false := by
  induction a generalizing b with
  | nil =>
    match b with
    | [] => exact Bool.noConfusion h
    | _ :: _ => rfl
  | cons x xs ih =>
    match b with
    | [] => exact Bool.noConfusion ((strLt_nil_right _).symm.trans h)
    | y :: ys =>
      by_cases hxy : x < y
      · simp [strLt, hxy, lt_asymm hxy]
      · by_cases hyx : y < x
        · simp [strLt, hxy, hyx] at h
        · simp only [strLt, if_neg hxy, if_neg hyx] at h
          simp [strLt, hxy, hyx, ih _ h]

theorem strLt_trans (a b c : List Char) (hab : strLt a b = true)
    (hbc : strLt b c = true) : strLt a c = true := by
  induction a generalizing b c with
  | nil =>
    match c with
    | [] => exact Bool.noConfusion ((strLt_nil_right b).symm.trans hbc)
    | _ :: _ => rfl
  | cons x xs ih =>
    match b, c with
    | [], _ => exact Bool.noConfusion hab
    | _ :: _, [] => exact Bool.noConfusion ((strLt_nil_right _).symm.trans hbc)
    | y :: ys, z :: zs =>
      by_cases hxy : x < y
      · by_cases hyz : y < z
        · simp [strLt, lt_trans hxy hyz]
        · by_cases hzy : z < y
          · simp [strLt, hyz, hzy] at hbc
          · have : y = z := le_antisymm (not_lt.mp hzy) (not_lt.mp hyz)
            subst this
            simp [strLt, hxy]
      · by_cases hyx : y < x
        · simp [strLt, hxy, hyx] at hab
        · have hxey : x = y := le_antisymm (not_lt.mp hyx) (not_lt.mp hxy)
          subst hxey
          simp only [strLt, if_neg hxy, if_neg hyx] at hab
          by_cases hxz : x < z
          · simp [strLt, hxz]
          · by_cases hzx : z < x
            · simp [strLt, hxz, hzx] at hbc
            · have : x = z := le_antisymm (not_lt.mp hzx) (not_lt.mp hxz)
              subst this
              simp only [strLt, if_neg hxz, lt_irrefl, if_neg (lt_irrefl x)] at hbc ⊢
              exact ih _ _ hab hbc

theorem strLt_connex (a b : List Char) (hab : strLt a b = false)
    (hba : strLt b a = false) : a = b := by
  induction a generalizing b with
  | nil =>
    match b with
    | [] => rfl
    | _ :: _ => exact Bool.noConfusion hab
  | cons x xs ih =>
    match b with
    | [] => exact Bool.noConfusion hba
    | y :: ys =>
      by_cases hxy : x < y
      · simp [strLt, hxy] at hab
      · by_cases hyx : y < x
        · simp [strLt, hyx, hxy] at hba
        · have hxey : x = y := le_antisymm (not_lt.mp hyx) (not_lt.mp hxy)
          subst hxey
          simp only [strLt, if_neg hxy, lt_irrefl, if_neg (lt_irrefl x)] at hab hba
          rw [ih _ hab hba]

theorem strLe_total (a b : List Char) : strLe a b = true ∨ strLe b a = true := by
  cases h : strLt b a with
  | false => exact Or.inl (by simp [strLe, h])
  | true => exact Or.inr (by simp [strLe, strLt_asymm _ _ h])

theorem strLe_trans (a b c : List Char) (hab : strLe a b = true)
    (hbc : strLe b c = true) : strLe a c = true := by
  simp only [strLe, Bool.not_eq_true'] at hab hbc ⊢
  cases hca : strLt c a with
  | false => rfl
  | true =>
    by_cases hbc2 : strLt b c = true
    · exact absurd (strLt_trans b c a hbc2 hca) (by simp [hab])
    · have hbec : b = c := strLt_connex b c (Bool.eq_false_iff.mpr hbc2) hbc
      subst hbec
      exact absurd hca (by simp [hab])

theorem strLe_antisymm (a b : List Char) (hab : strLe a b = true)
    (hba : strLe b a = true) : a = b := by
  simp only [strLe, Bool.not_eq_true'] at hab hba
  exact strLt_connex a b hba hab

/-! ### Data model (`Result`, lines 38-44) -/

structure Result where
  Name : String
  Status : String
  Region : String
  Info : String
  ExitCountry : String
deriving Repr, DecidableEq

/-! ### Country token table (`countryNameMap`, lines 201-231)

The Go source stores the table in a map literal; its entries are listed
here in source order.  (Go map iteration order is unspecified; the
descending-length sort below makes the scan order deterministic up to
ties between equal-length tokens, and every theorem proved about the
scan is insensitive to the tie order.) -/

def countryNameMap : List (String × String) :=
  [("美国", "US"), ("美", "US"), ("US", "US"),
   ("香港", "HK"), ("港", "HK"), ("HK", "HK"),
   ("台湾", "TW"), ("台", "TW"), ("TW", "TW"),
   ("日本", "JP"), ("日", "JP"), ("JP", "JP"),
   ("韩国", "KR"), ("韩", "KR"), ("KR", "KR"),
   ("新加坡", "SG"), ("狮城", "SG"), ("新", "SG"), ("SG", "SG"),
   ("英国", "GB"), ("英", "GB"), ("UK", "GB"), ("GB", "GB"),
   ("德国", "DE"), ("德", "DE"), ("DE", "DE"),
   ("法国", "FR"), ("法", "FR"), ("FR", "FR"),
   ("加拿大", "CA"), ("加", "CA"), ("CA", "CA"),
   ("澳大利亚", "AU"), ("澳", "AU"), ("AU", "AU"),
   ("俄罗斯", "RU"), ("俄", "RU"), ("RU", "RU"),
   ("印度", "IN"), ("印", "IN"), ("IN", "IN"),
   ("巴西", "BR"), ("BR", "BR"),
   ("阿根廷", "AR"), ("AR", "AR"),
   ("土耳其", "TR"), ("TR", "TR"),
   ("荷兰", "NL"), ("NL", "NL"),
   ("意大利", "IT"), ("IT", "IT"),
   ("西班牙", "ES"), ("ES", "ES"),
   ("瑞士", "CH"), ("CH", "CH"),
   ("瑞典", "SE"), ("SE", "SE"),
   ("波兰", "PL"), ("PL", "PL"),
   ("马来西亚", "MY"), ("马", "MY"), ("MY", "MY"),
   ("泰国", "TH"), ("泰", "TH"), ("TH", "TH"),
   ("越南", "VN"), ("越", "VN"), ("VN", "VN"),
   ("菲律宾", "PH"), ("菲", "PH"), ("PH", "PH"),
   ("印尼", "ID"), ("印度尼西亚", "ID"), ("ID", "ID"),
   ("阿联酋", "AE"), ("迪拜", "AE"), ("AE", "AE"),
   ("南非", "ZA"), ("ZA", "ZA")]

/-! ### Expected-country inference (`getExpectedCountryFromName`, lines 234-270) -/

/-- Go `len(key)` is the UTF-8 byte length of the key. -/
def tokenLe (a b : String × String) : Bool :=
  decide (b.1.utf8ByteSize ≤ a.1.utf8ByteSize)

/-- The token table sorted by descending key byte length with the
exchange sort of lines 254-260 (swap when `len(keys[i]) < len(keys[j])`). -/
def sortedKeys : List (String × String) :=
  exchSort tokenLe countryNameMap

/-- Model of the `strings.Index(name, "|") != -1` slicing of lines 236-238: everything up
to and including the first vertical bar is discarded; a name without a bar
is kept whole. -/
def afterFirstBar (s : List Char) : List Char :=
  if '|' ∈ s then (s.dropWhile (· != '|')).tail else s

/-- Go `unicode.IsSpace`: the white-space class used by `strings.TrimSpace`. -/
def goIsSpace (c : Char) : Bool :=
  c = ' ' || c = '\t' || c = '\n' || c = '\x0b' || c = '\x0c' || c = '\r' ||
  c = '\x85' || c = '\xa0' || c = '\u1680' ||
  ('\u2000' ≤ c && c ≤ '\u200a') ||
  c = '\u2028' || c = '\u2029' || c = '\u202f' || c = '\u205f' || c = '\u3000'

/-- Model of `strings.TrimSpace` (line 239). -/
def trimSpace (s : List Char) : List Char :=
  ((s.dropWhile goIsSpace).reverse.dropWhile goIsSpace).reverse

/-- Model of `strings.ToUpper` (lines 240 and 264).  Only ASCII letters change case,
which is all the table's Latin tokens need. -/
def upperChars (s : List Char) : List Char :=
  s.map Char.toUpper

/-- Helper for `strings.Contains`: does `pat` start the string. -/
def tokenAtStart : List Char → List Char → Bool
  | [], _ => true
  | _ :: _, [] => false
  | c :: cs, d :: ds => c == d && tokenAtStart cs ds

/-- Model of `strings.Contains(s, pat)`: `pat` occurs as a contiguous substring. -/
def tokenIn (pat : List Char) : List Char → Bool
  | [] => tokenAtStart pat []
  | c :: cs => tokenAtStart pat (c :: cs) || tokenIn pat cs

/-- The normalization applied to the (post-bar) name before matching:
trim surrounding white space, then uppercase (lines 239-240). -/
def normName (s : List Char) : List Char :=
  upperChars (trimSpace s)

/-- The scan of lines 262-268: walk `sortedKeys` and return the code of
the first key that occurs (case-insensitively) in the normalized name. -/
def matchCountryToken (s : List Char) : String :=
  match sortedKeys.find? (fun kv => tokenIn (upperChars kv.1.data) (normName s)) with
  | some kv => kv.2
  | none => ""

/-- Model of `getExpectedCountryFromName` (lines 234-270). -/
def getExpectedCountryFromName (name : String) : String :=
  matchCountryToken (afterFirstBar name.data)

/-! ### Mismatch determination (`isCountryMismatch`, lines 273-284) -/

def isCountryMismatch (nodeName exitCountry : String) : Bool :=
  if exitCountry = "" ∨ exitCountry = "N/A" then false
  else
    let expectedCountry := getExpectedCountryFromName nodeName
    if expectedCountry = "" then false
    else expectedCountry != exitCountry

/-! ### Problematic-node collection (`saveProblematicNodes`, lines 287-317) -/

structure problematicNode where
  result : Result
  countryCode : String
deriving Repr, DecidableEq

/-- The collection loop of lines 294-317: mismatched nodes are always
kept; non-`Success` nodes are kept only when the exit country is known;
a missing expected code is replaced by the sentinel `"ZZ"`. -/
def collectProblematic : List Result → List problematicNode
  | [] => []
  | result :: rest =>
    if isCountryMismatch result.Name result.ExitCountry then
      let countryCode := getExpectedCountryFromName result.Name
      let countryCode := if countryCode = "" then "ZZ" else countryCode
      ⟨result, countryCode⟩ :: collectProblematic rest
    else if result.Status ≠ "Success" then
      if result.ExitCountry = "" ∨ result.ExitCountry = "N/A" then
        collectProblematic rest
      else
        let countryCode := getExpectedCountryFromName result.Name
        let countryCode := if countryCode = "" then "ZZ" else countryCode
        ⟨result, countryCode⟩ :: collectProblematic rest
    else collectProblematic rest

/-- The comparison of the node sort (lines 324-330): swap when
`nodes[i].countryCode > nodes[j].countryCode` (byte-lexicographic). -/
def nodeLe (a b : problematicNode) : Bool :=
  strLe a.countryCode.data b.countryCode.data

/-- The exchange sort of lines 324-330 applied to the collected nodes. -/
def sortProblematic (nodes : List problematicNode) : List problematicNode :=
  exchSort nodeLe nodes

/-- The problematic-node count computed in `main` (lines 166-180). -/
def problematicCount : List Result → Nat
  | [] => 0
  | result :: rest =>
    if isCountryMismatch result.Name result.ExitCountry then
      problematicCount rest + 1
    else if result.Status ≠ "Success" then
      if result.ExitCountry = "" ∨ result.ExitCountry = "N/A" then
        problematicCount rest
      else
        problematicCount rest + 1
    else problematicCount rest

/-! ### Per-call token-table orders

Go rebuilds `sortedKeys` from `range countryNameMap` inside every call of
`getExpectedCountryFromName` (lines 248-260), and Go randomizes map
iteration per range loop, so two calls may leave equal-byte-length tokens
in different relative orders.  The fixed `sortedKeys` above is one such
resolution; the functions below take the resolved order as an explicit
`keys` parameter so that distinct call sites can be given distinct
resolutions.  The fixed-table functions are their `keys := sortedKeys`
instances. -/

/-- One call of `getExpectedCountryFromName` whose table scan uses the
resolved order `keys`. -/
def getExpectedCountryWith (keys : List (String × String)) (name : String) : String :=
  match keys.find? (fun kv => tokenIn (upperChars kv.1.data)
      (normName (afterFirstBar name.data))) with
  | some kv => kv.2
  | none => ""

/-- `isCountryMismatch` when its inference call resolved the table order
as `keys`. -/
def isCountryMismatchWith (keys : List (String × String))
    (nodeName exitCountry : String) : Bool :=
  if exitCountry = "" ∨ exitCountry = "N/A" then false
  else
    let expectedCountry := getExpectedCountryWith keys nodeName
    if expectedCountry = "" then false
    else expectedCountry != exitCountry

/-- The collection loop of `saveProblematicNodes` when all its inference
calls resolved the table order as `keys`. -/
def collectProblematicWith (keys : List (String × String)) :
    List Result → List problematicNode
  | [] => []
  | result :: rest =>
    if isCountryMismatchWith keys result.Name result.ExitCountry then
      let countryCode := getExpectedCountryWith keys result.Name
      let countryCode := if countryCode = "" then "ZZ" else countryCode
      ⟨result, countryCode⟩ :: collectProblematicWith keys rest
    else if result.Status ≠ "Success" then
      if result.ExitCountry = "" ∨ result.ExitCountry = "N/A" then
        collectProblematicWith keys rest
      else
        let countryCode := getExpectedCountryWith keys result.Name
        let countryCode := if countryCode = "" then "ZZ" else countryCode
        ⟨result, countryCode⟩ :: collectProblematicWith keys rest
    else collectProblematicWith keys rest

/-- The counting loop of `main` when all its inference calls resolved the
table order as `keys`. -/
def problematicCountWith (keys : List (String × String)) : List Result → Nat
  | [] => 0
  | result :: rest =>
    if isCountryMismatchWith keys result.Name result.ExitCountry then
      problematicCountWith keys rest + 1
    else if result.Status ≠ "Success" then
      if result.ExitCountry = "" ∨ result.ExitCountry = "N/A" then
        problematicCountWith keys rest
      else
        problematicCountWith keys rest + 1
    else problematicCountWith keys rest

/-- The same descending-length token order as `sortedKeys` but with the
two equal-byte-length entries `("GB", "GB")` and `("US", "US")`
transposed: another tie resolution that Go's randomized map iteration can
equally leave behind (like `sortedKeys` itself, it is a sorted
permutation of the table and a fixed point of the exchange sort). -/
def sortedKeysSwapped : List (String × String) :=
  sortedKeys.map (fun kv =>
    if kv = (("US" : String), ("US" : String)) then (("GB" : String), ("GB" : String))
    else if kv = (("GB" : String), ("GB" : String)) then (("US" : String), ("US" : String))
    else kv)

/-! ### Report rendering (`saveProblematicNodes`, lines 333-355) -/

/-- The four rendered fields of one report line (lines 337-352): name,
status collapsed to `Success`/`Failed`, region and exit country defaulted
to `"N/A"` when empty. -/
def resultFields (result : Result) : List (List Char) :=
  [result.Name.data,
   (if result.Status ≠ "Success" then "Failed" else result.Status).data,
   (if result.Region = "" then "N/A" else result.Region).data,
   (if result.ExitCountry = "" then "N/A" else result.ExitCountry).data]

/-- Join fields with tab separators, as `fmt.Sprintf("%s\t%s\t%s\t%s", ...)`. -/
def joinTabs : List (List Char) → List Char
  | [] => []
  | [f] => f
  | f :: fs => f ++ '\t' :: joinTabs fs

/-- One report line: the tab-joined fields plus the trailing newline. -/
def renderLine (result : Result) : List Char :=
  joinTabs (resultFields result) ++ ['\n']

/-- The header line written at line 334 (without its newline). -/
def headerLine : List Char :=
  "节点名称\tYouTube状态\t区域\t出口国家".data

/-- The full text built by the `strings.Builder` (lines 333-353). -/
def reportText (nodes : List problematicNode) : List Char :=
  headerLine ++ '\n' :: (nodes.map (fun node => renderLine node.result)).flatten

/-- Model of `saveProblematicNodes` (lines 287-356): collect, return without
writing when nothing is problematic, otherwise sort and produce the file
content. -/
def saveProblematicNodes (results : List Result) : Option (List Char) :=
  let nodes := collectProblematic results
  if nodes.length = 0 then none
  else some (reportText (sortProblematic nodes))

/-- Reading the report back: split into lines (the text ends with a
newline, so the final empty piece is dropped), then split each line at
tabs. -/
def splitOnChar (c : Char) : List Char → List (List Char)
  | [] => [[]]
  | x :: xs =>
    match splitOnChar c xs with
    | [] => [[]]
    | h :: t => if x = c then [] :: h :: t else (x :: h) :: t

def readReport (text : List Char) : List (List (List Char)) :=
  ((splitOnChar '\n' text).dropLast).map (fun line => splitOnChar '\t' line)

/-! ### Geolocation resolver (`getExitCountry`, lines 382-407)

The network interaction is abstracted into the outcome the code branches
on: request construction failing, `client.Do` failing, or a response with
an HTTP status and a body.  `body = none` models a body the JSON decoder
rejects; `body = some cc` models a decoded object whose `countryCode`
field is `cc` (a missing field decodes to `""`). -/

inductive GeoOutcome where
  | reqError : GeoOutcome
  | doError : GeoOutcome
  | response (status : Nat) (body : Option String) : GeoOutcome
deriving Repr, DecidableEq

def getExitCountry : GeoOutcome → String
  | .reqError => "N/A"
  | .doError => "N/A"
  | .response _ none => "N/A"
  | .response _ (some cc) => if cc ≠ "" then cc else "N/A"

/-- The `Result` built in the probe loop of `main` (lines 95-101). -/
def mkResult (name : String) (probeStatus probeRegion probeInfo : String)
    (geo : GeoOutcome) : Result :=
  { Name := name, Status := probeStatus, Region := probeRegion,
    Info := probeInfo, ExitCountry := getExitCountry geo }

/-! ### Proxy dialer (`createClient`, lines 359-379) -/

inductive AddrError where
  | missingPort : AddrError
  | tooManyColons : AddrError
  | missingCloseBracket : AddrError
  | unexpectedOpenBracket : AddrError
  | unexpectedCloseBracket : AddrError
deriving Repr, DecidableEq

/-- Index of the last occurrence of `c` (Go `last(hostPort, ':')`). -/
def lastIdxOf (c : Char) (s : List Char) : Option Nat :=
  (s.reverse.findIdx? (· == c)).map (fun k => s.length - 1 - k)

/-- Model of `net.SplitHostPort`: split `host:port`, handling the bracketed
IPv6 form `[host]:port` and rejecting malformed addresses. -/
def splitHostPort (s : List Char) : Except AddrError (List Char × List Char) :=
  match lastIdxOf ':' s with
  | none => .error .missingPort
  | some i =>
    if s.headD ' ' = '[' then
      match s.findIdx? (· == ']') with
      | none => .error .missingCloseBracket
      | some e =>
        if e + 1 = s.length then .error .missingPort
        else if e + 1 = i then
          if (s.drop 1).contains '[' then .error .unexpectedOpenBracket
          else if (s.drop (e + 1)).contains ']' then .error .unexpectedCloseBracket
          else .ok ((s.take e).drop 1, s.drop (i + 1))
        else if s.getD (e + 1) ' ' = ':' then .error .tooManyColons
        else .error .missingPort
    else
      if (s.take i).contains ':' then .error .tooManyColons
      else if s.contains '[' then .error .unexpectedOpenBracket
      else if s.contains ']' then .error .unexpectedCloseBracket
      else .ok (s.take i, s.drop (i + 1))

/-- Model of `strconv.ParseUint(port, 10, 16)`: `some n` exactly when the string is
a non-empty run of decimal digits whose value fits in 16 bits; otherwise
the Go call returns a non-nil error. -/
def parseUint16 (s : List Char) : Option Nat :=
  if s = [] then none
  else if s.all (fun c => c.isDigit) then
    let n := s.foldl (fun a c => a * 10 + (c.toNat - '0'.toNat)) 0
    if n < 65536 then some n else none
  else none

/-- The `DialContext` closure installed by `createClient` (lines 363-376):
a malformed address propagates the split error without dialing; otherwise
the proxy is dialed with the parsed port, which silently falls back to `0`
when `ParseUint` fails (`if port, err := ...; err == nil`).  An `.ok`
value stands for the `proxy.DialContext(host, port)` call that is made. -/
def dialTarget (addr : String) : Except AddrError (String × Nat) :=
  match splitHostPort addr.data with
  | .error err => .error err
  | .ok (host, port) =>
    let u16Port : Nat := match parseUint16 port with
      | some n => n
      | none => 0
    .ok (String.mk host, u16Port)

/-! ### Helper lemmas -/

/-- Let-free unfolding of one step of the collection loop. -/
theorem collectProblematic_cons (r : Result) (rs : List Result) :
    collectProblematic (r :: rs) =
      if isCountryMismatch r.Name r.ExitCountry then
        (⟨r, if getExpectedCountryFromName r.Name = "" then "ZZ"
             else getExpectedCountryFromName r.Name⟩ : problematicNode) ::
          collectProblematic rs
      else if r.Status ≠ "Success" then
        if r.ExitCountry = "" ∨ r.ExitCountry = "N/A" then collectProblematic rs
        else (⟨r, if getExpectedCountryFromName r.Name = "" then "ZZ"
                  else getExpectedCountryFromName r.Name⟩ : problematicNode) ::
          collectProblematic rs
      else collectProblematic rs := rfl

/-- The Boolean shape of the collection predicate, as a proposition. -/
theorem problematic_filter_pred (r : Result) :
    (isCountryMismatch r.Name r.ExitCountry ||
      (decide (r.Status ≠ "Success") &&
        ! decide (r.ExitCountry = "" ∨ r.ExitCountry = "N/A"))) = true ↔
      (isCountryMismatch r.Name r.ExitCountry = true ∨
        (r.Status ≠ "Success" ∧ r.ExitCountry ≠ "" ∧ r.ExitCountry ≠ "N/A")) := by
  simp [not_or]

/-- The results kept by the collection loop are exactly the results that
pass the mismatch-or-known-failure test, in encounter order. -/
theorem collect_eq_filter (results : List Result) :
    (collectProblematic results).map problematicNode.result =
      results.filter (fun r => isCountryMismatch r.Name r.ExitCountry ||
        (decide (r.Status ≠ "Success") &&
          ! decide (r.ExitCountry = "" ∨ r.ExitCountry = "N/A"))) := by
  induction results with
  | nil => rfl
  | cons r rs ih =>
    by_cases h1 : isCountryMismatch r.Name r.ExitCountry = true
    · simp [collectProblematic_cons, List.filter_cons, h1, ih]
    · by_cases h2 : r.Status ≠ "Success"
      · by_cases h3 : r.ExitCountry = "" ∨ r.ExitCountry = "N/A"
        · have h4 : ¬(¬r.ExitCountry = "" ∧ ¬r.ExitCountry = "N/A") :=
            fun hc => h3.elim hc.1 hc.2
          simp [collectProblematic_cons, List.filter_cons, h1, h2, h3, h4, ih]
        · have h4 : ¬r.ExitCountry = "" ∧ ¬r.ExitCountry = "N/A" := not_or.mp h3
          simp [collectProblematic_cons, List.filter_cons, h1, h2, h3, h4, ih]
      · simp [collectProblematic_cons, List.filter_cons, h1, h2, ih]

/-! ### Claims C2, C3 -/

/-- C2: `isCountryMismatch` returns `true` precisely when the resolved
exit country is not the sentinel (neither empty nor `"N/A"`), an expected
code is inferred from the name (non-empty), and the two codes differ;
absence of either side yields `false`. -/
theorem isCountryMismatch_iff (nodeName exitCountry : String) :
    isCountryMismatch nodeName exitCountry = true ↔
      exitCountry ≠ "" ∧ exitCountry ≠ "N/A" ∧
        getExpectedCountryFromName nodeName ≠ "" ∧
        getExpectedCountryFromName nodeName ≠ exitCountry := by
  simp only [isCountryMismatch]
  split_ifs with h1 h2
  · simp only [Bool.false_eq_true, false_iff, not_and]
    intro hne hna
    rcases h1 with h | h
    · exact absurd h hne
    · exact absurd h hna
  · simp only [Bool.false_eq_true, false_iff, not_and]
    intro _ _ hx
    exact absurd h2 hx.elim
  · push_neg at h1
    simp [bne_iff_ne, h1.1, h1.2, h2]

/-- C2 witness: the mismatch test evaluated at the spec's scenario
(name `"US-Node-1"`, exit country `"HK"`). -/
theorem isCountryMismatch_iff_check :
    isCountryMismatch "US-Node-1" "HK" = true ↔
      ("HK" : String) ≠ "" ∧ ("HK" : String) ≠ "N/A" ∧
        getExpectedCountryFromName "US-Node-1" ≠ "" ∧
        getExpectedCountryFromName "US-Node-1" ≠ "HK" :=
  isCountryMismatch_iff "US-Node-1" "HK"

/-- C3: a record is in the problematic set iff it is a country mismatch
(regardless of probe status), or its status is not `Success` and its exit
country is known; a failed node with unknown exit country is never
included. -/
theorem problematic_set_membership (results : List Result) (r : Result) :
    (∃ n ∈ collectProblematic results, n.result = r) ↔
      (r ∈ results ∧ (isCountryMismatch r.Name r.ExitCountry = true ∨
        (r.Status ≠ "Success" ∧ r.ExitCountry ≠ "" ∧ r.ExitCountry ≠ "N/A"))) := by
  constructor
  · rintro ⟨n, hn, rfl⟩
    have hm : n.result ∈ (collectProblematic results).map problematicNode.result :=
      List.mem_map_of_mem _ hn
    rw [collect_eq_filter] at hm
    have h := List.mem_filter.mp hm
    exact ⟨h.1, (problematic_filter_pred _).mp h.2⟩
  · rintro ⟨hr, hp⟩
    have hm : r ∈ (collectProblematic results).map problematicNode.result := by
      rw [collect_eq_filter]
      exact List.mem_filter.mpr ⟨hr, (problematic_filter_pred r).mpr hp⟩
    obtain ⟨n, hn, hnr⟩ := List.mem_map.mp hm
    exact ⟨n, hn, hnr⟩

/-- C3 witness: the membership characterization evaluated at the spec's
scenario of a failed node with unknown exit country (`"Unnamed-7"`). -/
theorem problematic_set_membership_check :
    (∃ n ∈ collectProblematic [(⟨"Unnamed-7", "Fail", "", "", "N/A"⟩ : Result)],
        n.result = (⟨"Unnamed-7", "Fail", "", "", "N/A"⟩ : Result)) ↔
      ((⟨"Unnamed-7", "Fail", "", "", "N/A"⟩ : Result) ∈
          [(⟨"Unnamed-7", "Fail", "", "", "N/A"⟩ : Result)] ∧
        (isCountryMismatch "Unnamed-7" "N/A" = true ∨
          (("Fail" : String) ≠ "Success" ∧ ("N/A" : String) ≠ "" ∧
            ("N/A" : String) ≠ "N/A"))) :=
  problematic_set_membership [⟨"Unnamed-7", "Fail", "", "", "N/A"⟩]
    ⟨"Unnamed-7", "Fail", "", "", "N/A"⟩

/-! ### Claim C10 -/

/-- Let-free unfolding of one step of the parameterized collection loop. -/
theorem collectProblematicWith_cons (keys : List (String × String))
    (r : Result) (rs : List Result) :
    collectProblematicWith keys (r :: rs) =
      if isCountryMismatchWith keys r.Name r.ExitCountry then
        (⟨r, if getExpectedCountryWith keys r.Name = "" then "ZZ"
             else getExpectedCountryWith keys r.Name⟩ : problematicNode) ::
          collectProblematicWith keys rs
      else if r.Status ≠ "Success" then
        if r.ExitCountry = "" ∨ r.ExitCountry = "N/A" then
          collectProblematicWith keys rs
        else (⟨r, if getExpectedCountryWith keys r.Name = "" then "ZZ"
                  else getExpectedCountryWith keys r.Name⟩ : problematicNode) ::
          collectProblematicWith keys rs
      else collectProblematicWith keys rs := rfl

/-- The fixed-table inference is the `keys := sortedKeys` instance. -/
theorem getExpectedCountryWith_sortedKeys (name : String) :
    getExpectedCountryWith sortedKeys name = getExpectedCountryFromName name := rfl

/-- The fixed-table mismatch test is the `keys := sortedKeys` instance. -/
theorem isCountryMismatchWith_sortedKeys (nodeName exitCountry : String) :
    isCountryMismatchWith sortedKeys nodeName exitCountry =
      isCountryMismatch nodeName exitCountry := rfl

/-- The fixed-table collection is the `keys := sortedKeys` instance. -/
theorem collectProblematicWith_sortedKeys (results : List Result) :
    collectProblematicWith sortedKeys results = collectProblematic results := by
  induction results with
  | nil => rfl
  | cons r rs ih =>
    rw [collectProblematicWith_cons, collectProblematic_cons, ih,
      isCountryMismatchWith_sortedKeys, getExpectedCountryWith_sortedKeys]

/-- C10 counterexample: the name `"GB-US"` matches the two equal-length
tokens `"GB"` and `"US"`, whose relative order Go re-randomizes on every
inference call.  `sortedKeysSwapped` is, like `sortedKeys`, an order the
Go sort can actually leave behind (a permutation of the table, sorted by
descending byte length, and a fixed point of the exchange sort), yet for
the single Success-status node `"GB-US"` with exit country `"US"` a
counting loop that resolved the tie as `sortedKeys` counts one
problematic node while a collection loop that resolved it as
`sortedKeysSwapped` collects none: the count and the written data lines
of one run can disagree. -/
theorem count_and_report_can_disagree :
    List.Perm sortedKeysSwapped countryNameMap ∧
    List.Pairwise (fun a b => tokenLe a b = true) sortedKeysSwapped ∧
    exchSort tokenLe sortedKeys = sortedKeys ∧
    exchSort tokenLe sortedKeysSwapped = sortedKeysSwapped ∧
    problematicCountWith sortedKeys
        [(⟨"GB-US", "Success", "", "", "US"⟩ : Result)] = 1 ∧
    (sortProblematic (collectProblematicWith sortedKeysSwapped
        [(⟨"GB-US", "Success", "", "", "US"⟩ : Result)])).length = 0 := by decide

/-- C10 amended: when every inference call of the counting loop in `main`
and of the collection loop in `saveProblematicNodes` resolves the
token-table tie order identically (one shared `keys`), the problematic
count equals the number of per-node data lines written: the two loops
implement the same classification.  With independently randomized
per-call orders the two classifications can disagree on a name matching
two equal-length tokens of different codes. -/
theorem count_matches_report_same_order (keys : List (String × String))
    (results : List Result) :
    problematicCountWith keys results =
      (sortProblematic (collectProblematicWith keys results)).length := by
  have h : problematicCountWith keys results =
      (collectProblematicWith keys results).length := by
    induction results with
    | nil => rfl
    | cons r rs ih =>
      rw [problematicCountWith, collectProblematicWith_cons]
      split_ifs <;> simp [ih]
  rw [h, sortProblematic]
  exact ((exchSort_perm nodeLe (collectProblematicWith keys results)).length_eq).symm

/-- C10 witness: with one shared order, even the tie-ambiguous `"GB-US"`
node is classified consistently by both loops, and the count equals the
line count on a three-node batch under the `sortedKeysSwapped` order. -/
theorem count_matches_report_same_order_check :
    problematicCountWith sortedKeys
        [(⟨"GB-US", "Success", "", "", "US"⟩ : Result)] =
      (sortProblematic (collectProblematicWith sortedKeys
        [(⟨"GB-US", "Success", "", "", "US"⟩ : Result)])).length ∧
    problematicCountWith sortedKeysSwapped
        [(⟨"GB-US", "Success", "", "", "US"⟩ : Result),
         (⟨"US-1", "Fail", "", "", "US"⟩ : Result),
         (⟨"Unnamed-7", "Fail", "", "", "N/A"⟩ : Result)] =
      (sortProblematic (collectProblematicWith sortedKeysSwapped
        [(⟨"GB-US", "Success", "", "", "US"⟩ : Result),
         (⟨"US-1", "Fail", "", "", "US"⟩ : Result),
         (⟨"Unnamed-7", "Fail", "", "", "N/A"⟩ : Result)])).length :=
  ⟨count_matches_report_same_order sortedKeys _,
   count_matches_report_same_order sortedKeysSwapped _⟩

/-! ### Claim C9 -/

theorem dropWhile_until_bar (p r : List Char) (hp : '|' ∉ p) :
    (p ++ '|' :: r).dropWhile (· != '|') = '|' :: r := by
  induction p with
  | nil => simp [List.dropWhile_cons]
  | cons c cs ih =>
    have hc : (c != '|') = true := by
      refine bne_iff_ne.mpr fun he => hp ?_
      exact he ▸ List.mem_cons_self c cs
    simp only [List.cons_append, List.dropWhile_cons, hc, if_true]
    exact ih fun h => hp (List.mem_cons_of_mem c h)

theorem afterFirstBar_append (p r : List Char) (hp : '|' ∉ p) :
    afterFirstBar (p ++ '|' :: r) = r := by
  have hmem : '|' ∈ p ++ '|' :: r :=
    List.mem_append_right _ (List.mem_cons_self _ _)
  rw [afterFirstBar, if_pos hmem, dropWhile_until_bar p r hp, List.tail_cons]

/-- C9: for a name with a vertical bar, inference depends only on the
part after the first bar: everything up to and including the bar is
discarded before trimming, uppercasing and token matching. -/
theorem inference_ignores_before_bar (p r : String) (hp : '|' ∉ p.data) :
    getExpectedCountryFromName (p ++ "|" ++ r) = matchCountryToken r.data := by
  have hdata : (p ++ "|" ++ r).data = p.data ++ '|' :: r.data := by
    simp [String.data_append]
  rw [getExpectedCountryFromName, hdata, afterFirstBar_append _ _ hp]

/-- C9 witness: the spec's scenario name `"ALPHA | 香港 01"`: inference
coincides with matching only the part after the bar. -/
theorem inference_ignores_before_bar_check :
    getExpectedCountryFromName ("ALPHA " ++ "|" ++ " 香港 01") =
      matchCountryToken (" 香港 01" : String).data :=
  inference_ignores_before_bar "ALPHA " " 香港 01" (by decide)

/-! ### Claim C1 -/

theorem tokenLe_total (a b : String × String) :
    tokenLe a b = true ∨ tokenLe b a = true := by
  simp only [tokenLe, decide_eq_true_eq]
  exact Nat.le_total _ _

theorem tokenLe_trans (a b c : String × String) (h1 : tokenLe a b = true)
    (h2 : tokenLe b c = true) : tokenLe a c = true := by
  simp only [tokenLe, decide_eq_true_eq] at h1 h2 ⊢
  exact Nat.le_trans h2 h1

theorem sortedKeys_pairwise :
    List.Pairwise (fun a b => tokenLe a b = true) sortedKeys :=
  exchSort_pairwise tokenLe tokenLe_total tokenLe_trans countryNameMap

theorem sortedKeys_perm : List.Perm sortedKeys countryNameMap :=
  exchSort_perm tokenLe countryNameMap

/-- C1 counterexample: the name `"ALPHA"`, whose only table-token
occurrence is `"PH"` inside the unrelated word itself, is nevertheless
inferred as `"PH"`: the longest-first scan only helps when a longer token
also matches. -/
theorem alpha_is_inferred_as_PH :
    getExpectedCountryFromName "ALPHA" = "PH" := by decide

/-- C1 amended: the inference returns the code of a matching token of
maximal byte length — a longer matching token is always preferred over a
shorter one — but a name whose only matching token is short (such as
`"PH"` inside `"ALPHA"`) does return that short token's code. -/
theorem inference_prefers_longest_token (name k c : String)
    (hk : (k, c) ∈ countryNameMap)
    (hm : tokenIn (upperChars k.data) (normName (afterFirstBar name.data)) = true) :
    ∃ kc : String × String, kc ∈ countryNameMap ∧
      tokenIn (upperChars kc.1.data) (normName (afterFirstBar name.data)) = true ∧
      k.utf8ByteSize ≤ kc.1.utf8ByteSize ∧
      getExpectedCountryFromName name = kc.2 := by
  cases hfind : sortedKeys.find?
      (fun kv => tokenIn (upperChars kv.1.data)
        (normName (afterFirstBar name.data))) with
  | none =>
    have hnone := List.find?_eq_none.mp hfind (k, c) (sortedKeys_perm.mem_iff.mpr hk)
    exact absurd hm hnone
  | some kv =>
    have hkvmem : kv ∈ sortedKeys := List.mem_of_find?_eq_some hfind
    have hkvp : tokenIn (upperChars kv.1.data)
        (normName (afterFirstBar name.data)) = true := by
      simpa using List.find?_some hfind
    have hlen : tokenLe kv (k, c) = true ∨ kv = (k, c) :=
      find_first_pairwise sortedKeys_pairwise hfind
        (sortedKeys_perm.mem_iff.mpr hk) hm
    refine ⟨kv, sortedKeys_perm.mem_iff.mp hkvmem, hkvp, ?_, ?_⟩
    · rcases hlen with h | h
      · simpa [tokenLe] using h
      · rw [h]
    · simp [getExpectedCountryFromName, matchCountryToken, hfind]

/-- C1 witness: at the name `"US-1"` and the table entry `("US", "US")`,
the scan indeed returns the code of a maximal-length matching token. -/
theorem inference_prefers_longest_token_check :
    ∃ kc : String × String, kc ∈ countryNameMap ∧
      tokenIn (upperChars kc.1.data)
        (normName (afterFirstBar ("US-1" : String).data)) = true ∧
      ("US" : String).utf8ByteSize ≤ kc.1.utf8ByteSize ∧
      getExpectedCountryFromName "US-1" = kc.2 :=
  inference_prefers_longest_token "US-1" "US" "US" (by decide) (by decide)

/-! ### Claim C4 -/

theorem strLt_irrefl (a : List Char) : strLt a a = false := by
  induction a with
  | nil => rfl
  | cons x xs ih => simp [strLt, lt_irrefl, ih]

theorem nodeLe_total (a b : problematicNode) :
    nodeLe a b = true ∨ nodeLe b a = true :=
  strLe_total _ _

theorem nodeLe_trans (a b c : problematicNode) (h1 : nodeLe a b = true)
    (h2 : nodeLe b c = true) : nodeLe a c = true :=
  strLe_trans _ _ _ h1 h2

/-- Every inferred code is either empty or one of the table's codes. -/
theorem getExpected_empty_or_table (name : String) :
    getExpectedCountryFromName name = "" ∨
      getExpectedCountryFromName name ∈ countryNameMap.map Prod.snd := by
  cases hfind : sortedKeys.find?
      (fun kv => tokenIn (upperChars kv.1.data)
        (normName (afterFirstBar name.data))) with
  | none => left; simp [getExpectedCountryFromName, matchCountryToken, hfind]
  | some kv =>
    right
    have hmem : kv ∈ countryNameMap :=
      sortedKeys_perm.mem_iff.mp (List.mem_of_find?_eq_some hfind)
    have h2 : getExpectedCountryFromName name = kv.2 := by
      simp [getExpectedCountryFromName, matchCountryToken, hfind]
    rw [h2]
    exact List.mem_map_of_mem _ hmem

/-- Every collected node's sort key is `"ZZ"` or one of the table codes. -/
theorem collect_code_cases (results : List Result) (n : problematicNode)
    (hn : n ∈ collectProblematic results) :
    n.countryCode = "ZZ" ∨ n.countryCode ∈ countryNameMap.map Prod.snd := by
  induction results with
  | nil => cases hn
  | cons r rs ih =>
    rw [collectProblematic_cons] at hn
    have hcode : n = (⟨r, if getExpectedCountryFromName r.Name = "" then "ZZ"
          else getExpectedCountryFromName r.Name⟩ : problematicNode) →
        n.countryCode = "ZZ" ∨ n.countryCode ∈ countryNameMap.map Prod.snd := by
      rintro rfl
      by_cases he : getExpectedCountryFromName r.Name = ""
      · left; simp [he]
      · right
        simpa [he] using (getExpected_empty_or_table r.Name).resolve_left he
    by_cases h1 : isCountryMismatch r.Name r.ExitCountry = true
    · rw [if_pos h1] at hn
      rcases List.mem_cons.mp hn with h | h
      · exact hcode h
      · exact ih h
    · rw [if_neg h1] at hn
      by_cases h2 : r.Status ≠ "Success"
      · rw [if_pos h2] at hn
        by_cases h3 : r.ExitCountry = "" ∨ r.ExitCountry = "N/A"
        · rw [if_pos h3] at hn
          exact ih hn
        · rw [if_neg h3] at hn
          rcases List.mem_cons.mp hn with h | h
          · exact hcode h
          · exact ih h
      · rw [if_neg h2] at hn
        exact ih hn

/-- All codes the table can produce sort at or before the `"ZZ"` sentinel. -/
theorem table_codes_le_ZZ :
    ∀ cd ∈ countryNameMap.map Prod.snd, strLe cd.data ("ZZ" : String).data = true := by
  decide

/-- C4 counterexample: three problematic nodes collected in the order
`US-1`, `US-2`, `HK-1` (codes `US`, `US`, `HK`) come out of the sort as
`HK-1`, `US-2`, `US-1`: the two equal-code `US` nodes have swapped their
encounter order, so the exchange sort is not stable. -/
theorem sort_reorders_equal_codes :
    (collectProblematic
        [(⟨"US-1", "Fail", "", "", "US"⟩ : Result),
         (⟨"US-2", "Fail", "", "", "US"⟩ : Result),
         (⟨"HK-1", "Fail", "", "", "HK"⟩ : Result)]).map
        (fun n => (n.result.Name, n.countryCode)) =
      [("US-1", "US"), ("US-2", "US"), ("HK-1", "HK")] ∧
    (sortProblematic (collectProblematic
        [(⟨"US-1", "Fail", "", "", "US"⟩ : Result),
         (⟨"US-2", "Fail", "", "", "US"⟩ : Result),
         (⟨"HK-1", "Fail", "", "", "HK"⟩ : Result)])).map
        (fun n => (n.result.Name, n.countryCode)) =
      [("HK-1", "HK"), ("US-2", "US"), ("US-1", "US")] := by decide

/-- C4 amended: the sort before writing the report is a permutation of the
collected nodes, non-decreasing by country code (byte-lexicographically),
and every node carrying the `"ZZ"` unknown-name sentinel is placed after
all nodes with real codes; but the exchange sort is not stable, so nodes
with equal codes may lose their encounter order. -/
theorem sortProblematic_orders (results : List Result) :
    List.Perm (sortProblematic (collectProblematic results))
        (collectProblematic results) ∧
    List.Pairwise (fun a b => nodeLe a b = true)
        (sortProblematic (collectProblematic results)) ∧
    List.Pairwise (fun a b : problematicNode =>
        a.countryCode = "ZZ" → b.countryCode = "ZZ")
      (sortProblematic (collectProblematic results)) := by
  refine ⟨exchSort_perm _ _, exchSort_pairwise _ nodeLe_total nodeLe_trans _, ?_⟩
  have hpw := exchSort_pairwise nodeLe nodeLe_total nodeLe_trans
    (collectProblematic results)
  refine hpw.imp_of_mem ?_
  intro a b ha hb hle hZZ
  have hb' : b ∈ collectProblematic results :=
    (exchSort_perm nodeLe _).mem_iff.mp hb
  have hbZZ : strLe b.countryCode.data ("ZZ" : String).data = true := by
    rcases collect_code_cases results b hb' with h | h
    · rw [h]; simp [strLe, strLt_irrefl]
    · exact table_codes_le_ZZ _ h
  have hZZb : strLe ("ZZ" : String).data b.countryCode.data = true := by
    rw [← hZZ]; exact hle
  have hdata := strLe_antisymm _ _ hZZb hbZZ
  exact (congrArg String.mk hdata).symm

/-- C4 witness: the amended ordering properties evaluated at a concrete
batch containing a `ZZ`-coded (unmatchable-name) node. -/
theorem sortProblematic_orders_check :
    List.Perm (sortProblematic (collectProblematic
        [(⟨"Unnamed-7", "Fail", "", "", "DE"⟩ : Result),
         (⟨"US-1", "Fail", "", "", "US"⟩ : Result)]))
        (collectProblematic
        [(⟨"Unnamed-7", "Fail", "", "", "DE"⟩ : Result),
         (⟨"US-1", "Fail", "", "", "US"⟩ : Result)]) ∧
    List.Pairwise (fun a b => nodeLe a b = true)
        (sortProblematic (collectProblematic
        [(⟨"Unnamed-7", "Fail", "", "", "DE"⟩ : Result),
         (⟨"US-1", "Fail", "", "", "US"⟩ : Result)])) ∧
    List.Pairwise (fun a b : problematicNode =>
        a.countryCode = "ZZ" → b.countryCode = "ZZ")
      (sortProblematic (collectProblematic
        [(⟨"Unnamed-7", "Fail", "", "", "DE"⟩ : Result),
         (⟨"US-1", "Fail", "", "", "US"⟩ : Result)])) :=
  sortProblematic_orders _

/-! ### Claim C5 -/

/-- C5 counterexample: the HTTP status code is never examined, so a
non-2xx response whose body still carries a non-empty country code does
not degrade to the sentinel: a status-500 response with body code `"US"`
yields `"US"`, not `"N/A"`. -/
theorem geo_ignores_http_status :
    getExitCountry (.response 500 (some "US")) = "US" ∧
      getExitCountry (.response 500 (some "US")) ≠ "N/A" := by decide

/-- C5 amended: `getExitCountry` degrades to the sentinel `"N/A"` on a
request-construction failure, a network error, a malformed JSON body or
an empty country-code field (and, being a total function, never raises a
failure); the HTTP status code is not examined, so the result never
depends on it. -/
theorem getExitCountry_sentinel_paths :
    (∀ o : GeoOutcome,
      (o = .reqError ∨ o = .doError ∨ (∃ s, o = .response s none) ∨
        (∃ s, o = .response s (some ""))) → getExitCountry o = "N/A") ∧
    (∀ s s' body, getExitCountry (.response s body) =
      getExitCountry (.response s' body)) := by
  constructor
  · rintro o (rfl | rfl | ⟨s, rfl⟩ | ⟨s, rfl⟩) <;> rfl
  · intro s s' body
    cases body <;> rfl

/-- C5 witness: a malformed-body response degrades to the sentinel, and
the status code is irrelevant to a decoded body. -/
theorem getExitCountry_sentinel_paths_check :
    getExitCountry (.response 404 none) = "N/A" ∧
      getExitCountry (.response 500 (some "DE")) =
        getExitCountry (.response 200 (some "DE")) :=
  ⟨getExitCountry_sentinel_paths.1 _ (Or.inr (Or.inr (Or.inl ⟨404, rfl⟩))),
   getExitCountry_sentinel_paths.2 500 200 (some "DE")⟩

/-! ### Claim C6 -/

/-- C6 counterexample: a port beyond the 16-bit range does not make the
dial function fail: `ParseUint`'s error is silently discarded
(`if port, err := ...; err == nil`), and the proxy is dialed with
port `0`. -/
theorem port_overflow_dials_port_zero :
    dialTarget "example.com:70000" = .ok ("example.com", 0) := rfl

/-- C6 amended: the dial function fails without dialing exactly when the
address fails to split into host and port; a port that parses within the
16-bit range is passed through, while an unparseable or out-of-range port
silently degrades to `0` and the dial proceeds. -/
theorem dialTarget_behavior (addr : String) :
    (∀ e, splitHostPort addr.data = .error e → dialTarget addr = .error e) ∧
    (∀ host port n, splitHostPort addr.data = .ok (host, port) →
      parseUint16 port = some n → dialTarget addr = .ok (String.mk host, n)) ∧
    (∀ host port, splitHostPort addr.data = .ok (host, port) →
      parseUint16 port = none → dialTarget addr = .ok (String.mk host, 0)) := by
  refine ⟨?_, ?_, ?_⟩
  · intro e he
    simp [dialTarget, he]
  · intro host port n hs hp
    simp [dialTarget, hs, hp]
  · intro host port hs hp
    simp [dialTarget, hs, hp]

/-- C6 witness: a bare host without a port is rejected without dialing, a
valid port is parsed and dialed, and an overflowing port dials port 0. -/
theorem dialTarget_behavior_check :
    dialTarget "nocolon" = .error .missingPort ∧
      dialTarget "h:80" = .ok ("h", 80) ∧
      dialTarget "h:99999" = .ok ("h", 0) :=
  ⟨(dialTarget_behavior "nocolon").1 .missingPort rfl,
   (dialTarget_behavior "h:80").2.1 ("h" : String).data ("80" : String).data 80 rfl rfl,
   (dialTarget_behavior "h:99999").2.2 ("h" : String).data ("99999" : String).data rfl rfl⟩

/-! ### Claim C7 -/

def isTwoLetterCode (s : String) : Bool :=
  (s.data.length == 2) && s.data.all (fun c => 'A' ≤ c && c ≤ 'Z')

/-- C7 counterexample: the geolocation response is taken verbatim, with no
two-letter validation, so a record built from a body whose `countryCode`
field is `"XYZ123"` carries an exit country that is neither a 2-letter
code nor the sentinel. -/
theorem exit_country_not_validated :
    (mkResult "node" "Success" "" "" (.response 200 (some "XYZ123"))).ExitCountry
        = "XYZ123" ∧
      isTwoLetterCode
        (mkResult "node" "Success" "" "" (.response 200 (some "XYZ123"))).ExitCountry
          = false ∧
      (mkResult "node" "Success" "" "" (.response 200 (some "XYZ123"))).ExitCountry
        ≠ "N/A" := by decide

/-- C7 amended: provided every decoded geolocation body carries an empty
or 2-letter country code — the code itself never validates this — each
probe record's exit country is a 2-letter code or the `"N/A"` sentinel. -/
theorem exitCountry_invariant (name pStatus pRegion pInfo : String)
    (geo : GeoOutcome)
    (hgeo : ∀ s cc, geo = .response s (some cc) →
      cc = "" ∨ isTwoLetterCode cc = true) :
    (mkResult name pStatus pRegion pInfo geo).ExitCountry = "N/A" ∨
      isTwoLetterCode (mkResult name pStatus pRegion pInfo geo).ExitCountry
        = true := by
  cases geo with
  | reqError => left; rfl
  | doError => left; rfl
  | response s body =>
    cases body with
    | none => left; rfl
    | some cc =>
      rcases hgeo s cc rfl with rfl | h
      · left
        simp [mkResult, getExitCountry]
      · by_cases hcc : cc = ""
        · subst hcc
          left
          simp [mkResult, getExitCountry]
        · right
          simp [mkResult, getExitCountry, hcc, h]

/-- C7 witness: a well-formed geolocation body (`"US"`) produces a record
whose exit country is a 2-letter code or the sentinel. -/
theorem exitCountry_invariant_check :
    (mkResult "n" "Success" "" "" (.response 200 (some "US"))).ExitCountry = "N/A" ∨
      isTwoLetterCode
        (mkResult "n" "Success" "" "" (.response 200 (some "US"))).ExitCountry
          = true :=
  exitCountry_invariant "n" "Success" "" "" (.response 200 (some "US")) (by
    intro s cc h
    injection h with h1 h2
    injection h2 with h3
    right
    rw [← h3]
    decide)

/-! ### Claim C8 -/

theorem splitOnChar_ne_nil (c : Char) (s : List Char) : splitOnChar c s ≠ [] := by
  cases s with
  | nil => simp [splitOnChar]
  | cons x xs =>
    simp only [splitOnChar]
    cases h : splitOnChar c xs with
    | nil => simp
    | cons hh tt => by_cases hx : x = c <;> simp [hx]

theorem splitOnChar_no_sep (c : Char) (l : List Char) (h : c ∉ l) :
    splitOnChar c l = [l] := by
  induction l with
  | nil => rfl
  | cons x xs ih =>
    have hx : x ≠ c := fun he => h (he ▸ List.mem_cons_self x xs)
    have hxs : c ∉ xs := fun hm => h (List.mem_cons_of_mem x hm)
    simp [splitOnChar, ih hxs, hx]

theorem splitOnChar_append_sep (c : Char) (a b : List Char) (h : c ∉ a) :
    splitOnChar c (a ++ c :: b) = a :: splitOnChar c b := by
  induction a with
  | nil =>
    cases hb : splitOnChar c b with
    | nil => exact absurd hb (splitOnChar_ne_nil c b)
    | cons hh tt => simp [splitOnChar, hb]
  | cons x xs ih =>
    have hx : x ≠ c := fun he => h (he ▸ List.mem_cons_self x xs)
    have hxs : c ∉ xs := fun hm => h (List.mem_cons_of_mem x hm)
    have hne := splitOnChar_ne_nil c (xs ++ c :: b)
    cases hsp : splitOnChar c (xs ++ c :: b) with
    | nil => exact absurd hsp hne
    | cons hh tt =>
      have := ih hxs
      rw [hsp] at this
      injection this with h1 h2
      simp [splitOnChar, hsp, hx, h1, h2]

theorem joinTabs_split (fs : List (List Char)) (hne : fs ≠ [])
    (hf : ∀ f ∈ fs, '\t' ∉ f) :
    splitOnChar '\t' (joinTabs fs) = fs := by
  induction fs with
  | nil => exact absurd rfl hne
  | cons f fs ih =>
    cases fs with
    | nil =>
      simpa [joinTabs] using splitOnChar_no_sep '\t' f (hf f (List.mem_cons_self _ _))
    | cons g gs =>
      have h1 : joinTabs (f :: g :: gs) = f ++ '\t' :: joinTabs (g :: gs) := rfl
      rw [h1, splitOnChar_append_sep _ _ _ (hf f (List.mem_cons_self _ _)),
        ih (List.cons_ne_nil _ _) (fun x hx => hf x (List.mem_cons_of_mem f hx))]

theorem joinTabs_no_newline (fs : List (List Char)) (hf : ∀ f ∈ fs, '\n' ∉ f) :
    '\n' ∉ joinTabs fs := by
  induction fs with
  | nil => simp [joinTabs]
  | cons f fs ih =>
    cases fs with
    | nil => simpa [joinTabs] using hf f (List.mem_cons_self _ _)
    | cons g gs =>
      intro hmem
      have h1 : joinTabs (f :: g :: gs) = f ++ '\t' :: joinTabs (g :: gs) := rfl
      rw [h1] at hmem
      rcases List.mem_append.mp hmem with h | h
      · exact hf f (List.mem_cons_self _ _) h
      · rcases List.mem_cons.mp h with he | h
        · exact absurd he (by decide)
        · exact ih (fun x hx => hf x (List.mem_cons_of_mem f hx)) h

/-- Splitting the data section at newlines recovers one tab-joined line
per node (plus the empty trailing piece), provided no field contains a
tab or newline. -/
theorem splitLines_dataText (nodes : List problematicNode)
    (hclean : ∀ n ∈ nodes, ∀ f ∈ resultFields n.result, '\t' ∉ f ∧ '\n' ∉ f) :
    splitOnChar '\n' ((nodes.map (fun node => renderLine node.result)).flatten) =
      nodes.map (fun n => joinTabs (resultFields n.result)) ++ [[]] := by
  induction nodes with
  | nil => rfl
  | cons n ns ih =>
    have hline : '\n' ∉ joinTabs (resultFields n.result) :=
      joinTabs_no_newline _
        (fun f hf => (hclean n (List.mem_cons_self _ _) f hf).2)
    have hstep : (List.map (fun node => renderLine node.result) (n :: ns)).flatten
        = joinTabs (resultFields n.result) ++ '\n' ::
            (List.map (fun node => renderLine node.result) ns).flatten := by
      rw [List.map_cons, List.flatten_cons, renderLine, List.append_assoc,
        List.singleton_append]
    rw [hstep, splitOnChar_append_sep _ _ _ hline,
      ih (fun m hm => hclean m (List.mem_cons_of_mem n hm))]
    rfl

/-- C8 counterexample: the writer performs no escaping, so a problematic
node whose name embeds a newline (`"A\nB"`) produces a report with three
data/header lines instead of the claimed `N + 1 = 2`, and its fields can
no longer be recovered by tab-splitting the lines. -/
theorem report_roundtrip_fails_on_newline :
    (collectProblematic [(⟨"A\nB", "Fail", "", "", "US"⟩ : Result)]).length = 1 ∧
      (readReport (reportText (sortProblematic (collectProblematic
        [(⟨"A\nB", "Fail", "", "", "US"⟩ : Result)])))).length = 3 := by decide

/-- C8 amended: provided no rendered field (name, rendered status,
defaulted region, defaulted exit country) contains a tab or newline,
writing the report for `N` problematic nodes and re-reading it yields the
header line plus exactly `N` tab-separated lines whose four fields equal
the rendered record fields exactly. -/
theorem report_roundtrip (nodes : List problematicNode)
    (hclean : ∀ n ∈ nodes, ∀ f ∈ resultFields n.result, '\t' ∉ f ∧ '\n' ∉ f) :
    readReport (reportText nodes) =
      splitOnChar '\t' headerLine :: nodes.map (fun n => resultFields n.result) ∧
    (readReport (reportText nodes)).length = nodes.length + 1 := by
  have hhdr : '\n' ∉ headerLine := by decide
  have h1 : splitOnChar '\n' (reportText nodes) =
      headerLine :: (nodes.map (fun n => joinTabs (resultFields n.result)) ++ [[]]) := by
    rw [reportText, splitOnChar_append_sep _ _ _ hhdr, splitLines_dataText nodes hclean]
  have hmain : readReport (reportText nodes) =
      splitOnChar '\t' headerLine :: nodes.map (fun n => resultFields n.result) := by
    rw [readReport, h1]
    have h2 : headerLine ::
        (nodes.map (fun n => joinTabs (resultFields n.result)) ++ [[]]) =
        (headerLine :: nodes.map (fun n => joinTabs (resultFields n.result))) ++ [[]] := by
      simp
    rw [h2, List.dropLast_concat, List.map_cons, List.map_map]
    congr 1
    refine List.map_congr_left ?_
    intro n hn
    exact joinTabs_split _ (by simp [resultFields])
      (fun f hf => (hclean n hn f hf).1)
  refine ⟨hmain, ?_⟩
  rw [hmain]
  simp

/-- C8 witness: the round trip evaluated at one clean problematic node. -/
theorem report_roundtrip_check :
    readReport (reportText
        [(⟨⟨"US-1", "Fail", "", "", "US"⟩, "US"⟩ : problematicNode)]) =
      splitOnChar '\t' headerLine ::
        [(⟨⟨"US-1", "Fail", "", "", "US"⟩, "US"⟩ : problematicNode)].map
          (fun n => resultFields n.result) ∧
    (readReport (reportText
        [(⟨⟨"US-1", "Fail", "", "", "US"⟩, "US"⟩ : problematicNode)])).length =
      [(⟨⟨"US-1", "Fail", "", "", "US"⟩, "US"⟩ : problematicNode)].length + 1 :=
  report_roundtrip _ (by decide)

end YoutubeCheck

